import Mathlib

/-!
Verification development for the NYC precinct app's two algorithmic cores:
spatial zone resolution (`src/utils/geo.ts`, `src/db/repositories/precinctRepository.ts`)
and the cyclic duty-calendar engine (`src/db/repositories/calendarRepository.ts`),
plus the dataset version-upgrade gate (`src/services/dataLoader.ts`).

Numbers are modelled as exact rationals (`ℚ`) for coordinates and as integers
for calendar arithmetic.  JSON parsing is modelled by its outcome: a field that
the code obtains via `JSON.parse` is embedded as an `Option` of the parsed
shape, `none` standing for a parse failure (a thrown exception at the parse
site).  All functions are total Lean functions; the `try/catch` skip-on-error
behaviour of the source is represented explicitly in the control flow.
-/

namespace NYCApp

/-- In-memory point type of the app (`models.ts` `LatLng`): latitude first,
longitude second — note this is reversed from the GeoJSON `[lng, lat]`
vertex order. -/
structure LatLng where
  latitude : ℚ
  longitude : ℚ
deriving DecidableEq, Repr

/-- `models.ts` `BoundingBox`. -/
structure BoundingBox where
  minLat : ℚ
  minLng : ℚ
  maxLat : ℚ
  maxLng : ℚ
deriving DecidableEq, Repr

/-- A parsed boundary-geometry JSON value as `isPointInPolygon` (geo.ts)
inspects it: a `Polygon` (list of rings, each ring a list of `[lng, lat]`
vertices), a `MultiPolygon` (list of polygons), or a successfully parsed
value whose `type` tag is neither of the two (`other`). -/
inductive Geometry where
  | polygon (coordinates : List (List (ℚ × ℚ)))
  | multiPolygon (coordinates : List (List (List (ℚ × ℚ))))
  | other
deriving DecidableEq, Repr

/-- geo.ts `parseBoundingBox`: the JSON string is modelled by its parse
outcome (`none` = unparseable or not an array); the function then demands an
array of length exactly 4, read as `[minLat, minLng, maxLat, maxLng]`. -/
def parseBoundingBox (json : Option (List ℚ)) : Option BoundingBox :=
  match json with
  | some [a, b, c, d] => some { minLat := a, minLng := b, maxLat := c, maxLng := d }
  | _ => none

/-- precinctRepository.ts `isPointInBoundingBox`: four inclusive comparisons. -/
def isPointInBoundingBox (point : LatLng) (bbox : BoundingBox) : Bool :=
  decide (point.latitude ≥ bbox.minLat) && decide (point.latitude ≤ bbox.maxLat) &&
    decide (point.longitude ≥ bbox.minLng) && decide (point.longitude ≤ bbox.maxLng)

/-- The straddle test of one ray-casting edge, geo.ts `rayCasting`:
`(yi > lat) !== (yj > lat)` where a vertex is `(x, y) = (lng, lat)`. -/
def edgeStraddles (lat : ℚ) (vi vj : ℚ × ℚ) : Bool :=
  decide (vi.2 > lat) != decide (vj.2 > lat)

/-- One full edge test of geo.ts `rayCasting`:
`(yi > lat) !== (yj > lat) && lng < (xj - xi) * (lat - yi) / (yj - yi) + xi`.
JavaScript `&&` evaluates the second conjunct (the one containing the
division) only when the first holds. -/
def edgeCrossing (lat lng : ℚ) (vi vj : ℚ × ℚ) : Bool :=
  edgeStraddles lat vi vj &&
    decide (lng < (vj.1 - vi.1) * (lat - vi.2) / (vj.2 - vi.2) + vi.1)

/-- Loop body of geo.ts `rayCasting` at index `i`, with `j = i = 0 ? n - 1 : i - 1`. -/
def rayCastingStep (lat lng : ℚ) (ring : List (ℚ × ℚ)) (inside : Bool) (i : ℕ) : Bool :=
  let vi := ring.getD i ((0 : ℚ), (0 : ℚ))
  let vj := ring.getD (if i = 0 then ring.length - 1 else i - 1) ((0 : ℚ), (0 : ℚ))
  if edgeCrossing lat lng vi vj then !inside else inside

/-- geo.ts `rayCasting`: iterate the crossing test over every edge of the
ring, toggling the `inside` flag. -/
def rayCasting (lat lng : ℚ) (ring : List (ℚ × ℚ)) : Bool :=
  (List.range ring.length).foldl (rayCastingStep lat lng ring) false

/-- Instrumented loop body for `rayCasting`: identical control flow, except
that reaching the division `(xj - xi) * (lat - yi) / (yj - yi)` with a zero
divisor is recorded as a fault (`none`).  Used only to state that the fault
is unreachable. -/
def rayCastingCheckedStep (lat lng : ℚ) (ring : List (ℚ × ℚ))
    (inside : Option Bool) (i : ℕ) : Option Bool :=
  match inside with
  | none => none
  | some b =>
    let vi := ring.getD i ((0 : ℚ), (0 : ℚ))
    let vj := ring.getD (if i = 0 then ring.length - 1 else i - 1) ((0 : ℚ), (0 : ℚ))
    if edgeStraddles lat vi vj then
      if vj.2 - vi.2 = 0 then none
      else if decide (lng < (vj.1 - vi.1) * (lat - vi.2) / (vj.2 - vi.2) + vi.1) then
        some (!b)
      else some b
    else some b

/-- `rayCasting` with the division-by-zero fault channel made explicit. -/
def rayCastingChecked (lat lng : ℚ) (ring : List (ℚ × ℚ)) : Option Bool :=
  (List.range ring.length).foldl (rayCastingCheckedStep lat lng ring) (some false)

/-- geo.ts `isPointInSinglePolygon`: empty coordinate list is no match;
otherwise only the first (exterior) ring is tested. -/
def isPointInSinglePolygon (point : LatLng) (coordinates : List (List (ℚ × ℚ))) : Bool :=
  match coordinates with
  | [] => false
  | ring :: _ => rayCasting point.latitude point.longitude ring

/-- geo.ts `isPointInPolygon`: dispatch on the `type` tag; an unrecognized
tag is no match; a MultiPolygon matches when any constituent polygon does. -/
def isPointInPolygon (point : LatLng) (geometry : Geometry) : Bool :=
  match geometry with
  | .polygon coordinates => isPointInSinglePolygon point coordinates
  | .multiPolygon coordinates =>
    coordinates.any fun poly => isPointInSinglePolygon point poly
  | .other => false

/-- A precinct row (`models.ts` `Precinct`), with the two JSON text fields
embedded as their parse outcomes: `boundaryJson` as `none` when
`JSON.parse` would throw, and `boundingBoxJson` as the parsed array (or
`none` when unparseable / not an array). -/
structure Precinct where
  precinctNum : ℤ
  name : String
  borough : String
  boundaryJson : Option Geometry
  centroidLat : ℚ
  centroidLng : ℚ
  boundingBoxJson : Option (List ℚ)
deriving DecidableEq, Repr

/-- The centroid point `{ latitude: p.centroidLat, longitude: p.centroidLng }`
built inline by the repository code. -/
def centroid (p : Precinct) : LatLng :=
  { latitude := p.centroidLat, longitude := p.centroidLng }

/-- precinctRepository.ts `distanceTo`: squared planar distance in lat/lng
space. -/
def distanceTo (a b : LatLng) : ℚ :=
  let dlat := a.latitude - b.latitude
  let dlng := a.longitude - b.longitude
  dlat * dlat + dlng * dlng

/-- The bounding-box pre-filter of `findPrecinctAtLocation`:
`bbox && isPointInBoundingBox(point, bbox)` after `parseBoundingBox`. -/
def inCandidate (point : LatLng) (p : Precinct) : Bool :=
  match parseBoundingBox p.boundingBoxJson with
  | some bbox => isPointInBoundingBox point bbox
  | none => false

/-- Whether the loop body of `findPrecinctAtLocation` accepts `p`: the
boundary JSON parses (otherwise the `try/catch` skips the zone) and the
ray-casting polygon test succeeds. -/
def polygonMatch (point : LatLng) (p : Precinct) : Bool :=
  match p.boundaryJson with
  | some geometry => isPointInPolygon point geometry
  | none => false

/-- Loop body of `findPrecinctAtLocation`: the accumulator carries
`bestMatch` and `bestDistance` together (`none` stands for the initial
`bestMatch = null / bestDistance = Infinity` pair, which every finite
distance beats). -/
def bestStep (point : LatLng) (acc : Option (Precinct × ℚ)) (p : Precinct) :
    Option (Precinct × ℚ) :=
  match p.boundaryJson with
  | none => acc
  | some geometry =>
    if isPointInPolygon point geometry then
      let dist := distanceTo point (centroid p)
      match acc with
      | none => some (p, dist)
      | some (b, bestDistance) =>
        if dist < bestDistance then some (p, dist) else some (b, bestDistance)
    else acc

/-- precinctRepository.ts `findPrecinctAtLocation`: bounding-box pre-filter,
then ray-casting over the candidates, keeping the matching zone whose
centroid is nearest (strictly-smaller updates, so first wins ties). -/
def findPrecinctAtLocation (point : LatLng) (precincts : List Precinct) :
    Option Precinct :=
  ((precincts.filter (inCandidate point)).foldl (bestStep point) none).map Prod.fst

/-- Instrumentation for the loop of `findPrecinctAtLocation`: how many times
its body reaches the `isPointInPolygon` call (one per candidate whose
boundary JSON parses). -/
def polygonTestsRun (point : LatLng) (precincts : List Precinct) : ℕ :=
  ((precincts.filter (inCandidate point)).filter fun p => p.boundaryJson.isSome).length

/-- Loop body of `findNearestPrecinct`: unconditional nearest-centroid scan. -/
def nearestStep (point : LatLng) (acc : Option (Precinct × ℚ)) (p : Precinct) :
    Option (Precinct × ℚ) :=
  let dist := distanceTo point (centroid p)
  match acc with
  | none => some (p, dist)
  | some (b, minDist) =>
    if dist < minDist then some (p, dist) else some (b, minDist)

/-- precinctRepository.ts `findNearestPrecinct`: scan every zone for the
minimum squared centroid distance; reject the result when that minimum
exceeds `0.0009` (≈ 3 km). -/
def findNearestPrecinct (point : LatLng) (precincts : List Precinct) :
    Option Precinct :=
  match precincts.foldl (nearestStep point) none with
  | none => none
  | some (nearest, minDist) =>
    if minDist > (9 : ℚ) / 10000 then none else some nearest

/-- The malformed-boundary shapes named by the error-handling design:
unparseable JSON, an empty coordinate list, or a recognized parse with an
unrecognized `type` tag. -/
def malformedBoundary (p : Precinct) : Bool :=
  match p.boundaryJson with
  | none => true
  | some (.polygon []) => true
  | some (.multiPolygon []) => true
  | some .other => true
  | some (.polygon (_ :: _)) => false
  | some (.multiPolygon (_ :: _)) => false

/-! Concrete fixtures used to instantiate the theorems below. -/

/-- A closed square ring with vertices `(lng, lat)` spanning `[0,2] × [0,2]`. -/
def squareRing : List (ℚ × ℚ) := [(0, 0), (2, 0), (2, 2), (0, 2), (0, 0)]

/-- A closed square ring spanning `[0,4] × [0,4]`. -/
def bigRing : List (ℚ × ℚ) := [(0, 0), (4, 0), (4, 4), (0, 4), (0, 0)]

/-- A zone over `squareRing` with centroid `(1, 1)`. -/
def zoneA : Precinct :=
  { precinctNum := 1, name := "1st Precinct", borough := "Manhattan",
    boundaryJson := some (.polygon [squareRing]),
    centroidLat := 1, centroidLng := 1, boundingBoxJson := some [0, 0, 2, 2] }

/-- A zone over `bigRing` with centroid `(2, 2)`; its polygon overlaps
`zoneA`. -/
def zoneB : Precinct :=
  { precinctNum := 2, name := "2nd Precinct", borough := "Manhattan",
    boundaryJson := some (.polygon [bigRing]),
    centroidLat := 2, centroidLng := 2, boundingBoxJson := some [0, 0, 4, 4] }

/-- A zone whose boundary JSON fails to parse (`JSON.parse` throws). -/
def badZone : Precinct :=
  { precinctNum := 3, name := "Broken", borough := "Manhattan",
    boundaryJson := none,
    centroidLat := 1, centroidLng := 1, boundingBoxJson := some [0, 0, 2, 2] }

/-- A query point inside `zoneA` and `zoneB`. -/
def samplePoint : LatLng := { latitude := 1, longitude := 1 }

/-- A query point outside every fixture bounding box. -/
def farPoint : LatLng := { latitude := 50, longitude := 50 }

/-! ## Calendar engine (calendarRepository.ts)

Dates are embedded as proleptic-Gregorian civil dates; a date's day number
(days since 1970-01-01) plays the role of `Date.getTime() / 86400000` for a
local-midnight date in an environment with a fixed UTC offset (the spec
requires the pure calendar-day difference).  `Int.ediv`/`%` on `ℤ` are
Euclidean, which for the positive literal divisors used here coincides with
floor division; the JavaScript `%` (truncating remainder) is `Int.tmod`. -/

/-- `patternType` discriminator of `models.ts` `RdoSchedule`. -/
inductive PatternType where
  | rotating
  | steady
deriving DecidableEq, Repr

/-- `models.ts` `RdoSchedule`; the `anchorDate` ISO string `YYYY-MM-DD` is
embedded by its three components (month 1-based), and the single-character
tokens of `patternArray` as `Char`s. -/
structure RdoSchedule where
  scheduleId : ℤ
  squadId : ℤ
  patternType : PatternType
  cycleLength : ℤ
  patternArray : List Char
  anchorYear : ℤ
  anchorMonth : ℤ
  anchorDay : ℤ
  squadOffset : ℤ
deriving DecidableEq, Repr

/-- Gregorian leap-year rule (the rule `new Date` month lengths follow). -/
def isLeapYear (y : ℤ) : Bool :=
  (y % 4 == 0 && y % 100 != 0) || y % 400 == 0

/-- `new Date(year, month + 1, 0).getDate()` for a 0-based `month < 12`:
the number of days of that calendar month. -/
def daysInMonth (year : ℤ) (month : ℕ) : ℕ :=
  if month = 1 then (if isLeapYear year then 29 else 28)
  else if month = 3 ∨ month = 5 ∨ month = 8 ∨ month = 10 then 30
  else 31

/-- Day number of the civil date `(y, m, d)` (month `m` 1-based) relative to
1970-01-01, by the standard era/year-of-era decomposition.  This embeds
`new Date(y, m - 1, d).getTime() / 86400000` for a midnight-normalized
date. -/
def daysFromCivil (y m d : ℤ) : ℤ :=
  let yAdj := if m ≤ 2 then y - 1 else y
  let era := yAdj / 400
  let yoe := yAdj - era * 400
  let mp := (m + 9) % 12
  let doy := (153 * mp + 2) / 5 + d - 1
  let doe := yoe * 365 + yoe / 4 - yoe / 100 + doy
  era * 146097 + doe - 719468

/-- `Date.prototype.getDay` (0 = Sunday) of the date with the given day
number: 1970-01-01 was a Thursday (4). -/
def getDay (dayNumber : ℤ) : ℤ :=
  (dayNumber + 4) % 7

/-- The rotating-branch index computation of `computeMonthSchedule`:
`((diffDays + squadOffset) % cycleLength)` with JavaScript's truncating `%`,
then `if (dayIndex < 0) dayIndex += cycleLength`. -/
def cyclicIndex (diffDays offset cycleLength : ℤ) : ℤ :=
  let dayIndex := Int.tmod (diffDays + offset) cycleLength
  if dayIndex < 0 then dayIndex + cycleLength else dayIndex

/-- `patternArray[i] === 'O'`: an out-of-range (or negative) index reads
`undefined`, which is not `'O'`. -/
def patternIsOffAt (pattern : List Char) (i : ℤ) : Bool :=
  match i with
  | .ofNat n => pattern.getD n '?' == 'O'
  | .negSucc _ => false

/-- The per-day body of `computeMonthSchedule` for a target date given by
its day number: rotating schedules index the cycle by the day difference
from the anchor; steady schedules index the 7-entry pattern by weekday. -/
def isOffOn (s : RdoSchedule) (targetN : ℤ) : Bool :=
  let anchorN := daysFromCivil s.anchorYear s.anchorMonth s.anchorDay
  let diffDays := targetN - anchorN
  match s.patternType with
  | .rotating => patternIsOffAt s.patternArray (cyclicIndex diffDays s.squadOffset s.cycleLength)
  | .steady => patternIsOffAt s.patternArray (getDay targetN)

/-- calendarRepository.ts `computeMonthSchedule` (`month` 0-based): the
mapping day-of-month `1..daysInMonth` to the RDO flag, as the association
list built in loop order. -/
def computeMonthSchedule (year : ℤ) (month : ℕ) (s : RdoSchedule) :
    List (ℤ × Bool) :=
  (List.range (daysInMonth year month)).map fun k : ℕ =>
    ((k : ℤ) + 1, isOffOn s (daysFromCivil year ((month : ℤ) + 1) ((k : ℤ) + 1)))

/-- The 15-day rotating pattern seeded by dataLoader.ts:
5 on, 2 off, 5 on, 3 off. -/
def rotatingPattern : List Char :=
  ['W', 'W', 'W', 'W', 'W', 'O', 'O', 'W', 'W', 'W', 'W', 'W', 'O', 'O', 'O']

/-- Squad 1's schedule as seeded by dataLoader.ts `seedSquadsAndSchedules`:
rotating, cycle 15, anchored 2026-01-01, offset 0. -/
def squad1Schedule : RdoSchedule :=
  { scheduleId := 1, squadId := 1, patternType := .rotating, cycleLength := 15,
    patternArray := rotatingPattern,
    anchorYear := 2026, anchorMonth := 1, anchorDay := 1, squadOffset := 0 }

/-- The steady squad's schedule as seeded by dataLoader.ts: weekly pattern
`[O,W,W,W,W,W,O]` (Sunday-first). -/
def steadySquadSchedule : RdoSchedule :=
  { scheduleId := 6, squadId := 6, patternType := .steady, cycleLength := 7,
    patternArray := ['O', 'W', 'W', 'W', 'W', 'W', 'O'],
    anchorYear := 2026, anchorMonth := 1, anchorDay := 1, squadOffset := 0 }

/-! ## Dataset version manager (dataLoader.ts) -/

/-- JavaScript `<` on two strings: lexicographic comparison of code units
(codepoints, for the ASCII version strings involved). -/
def jsCharListLt : List Char → List Char → Bool
  | [], [] => false
  | [], _ :: _ => true
  | _ :: _, [] => false
  | c :: a, d :: b =>
    if c.toNat < d.toNat then true
    else if d.toNat < c.toNat then false
    else jsCharListLt a b

/-- `a < b` on version strings as the source compares them. -/
def jsStringLt (a b : String) : Bool :=
  jsCharListLt a.data b.data

/-- The upgrade gate `!ver || ver.version < TARGET` inlined in
`upgradeSectorsIfNeeded` (dataLoader.ts) and `upgradePrecinctsIfNeeded`:
upgrade when no version is recorded or the recorded string compares
less-than the target. -/
def needsUpgrade (current : Option String) (target : String) : Bool :=
  match current with
  | none => true
  | some v => jsStringLt v target

/-- `models.ts` `DatasetKey`. -/
inductive DatasetKey where
  | precincts
  | sectors
  | laws
deriving DecidableEq, Repr

/-- A sector row (`models.ts` `Sector`), JSON fields by parse outcome. -/
structure Sector where
  sectorId : String
  precinctNum : ℤ
  boundaryJson : Option Geometry
  boundingBoxJson : Option (List ℚ)
deriving DecidableEq, Repr

/-- The SQLite state the upgrade path touches: the two row tables and the
`data_versions` table (an association list keyed by dataset). -/
structure DbState where
  precinctRows : List Precinct
  sectorRows : List Sector
  versions : List (DatasetKey × String)
deriving DecidableEq, Repr

/-- syncRepository.ts `getDataVersion`. -/
def getDataVersion (st : DbState) (k : DatasetKey) : Option String :=
  st.versions.lookup k

/-- syncRepository.ts `setDataVersion`: upsert of the version row. -/
def setDataVersion (st : DbState) (k : DatasetKey) (v : String) : DbState :=
  { st with versions := (k, v) :: st.versions.filter fun e => e.1 != k }

/-- dataLoader.ts `PRECINCT_VERSION`. -/
def precinctVersion : String := "2.0.0"

/-- dataLoader.ts `SECTOR_VERSION`. -/
def sectorVersion : String := "2.0.0"

/-- dataLoader.ts `upgradeSectorsIfNeeded`, with the effect of each seeding
call supplied as a parameter: `.ok rows` is a reseed that completes and
leaves `rows` in the table, `.error partialRows` is a reseed that throws
after the `DELETE` with only `partialRows` inserted.  A thrown error
propagates to the surrounding `try/catch` (skipping everything after the
throw, in particular the `setDataVersion` calls), whose handler only
logs. -/
def upgradeSectorsIfNeeded (st : DbState)
    (precinctSeed : Except (List Precinct) (List Precinct))
    (sectorSeed : Except (List Sector) (List Sector)) : DbState :=
  let phase1 : Except DbState DbState :=
    if needsUpgrade (getDataVersion st .precincts) precinctVersion then
      match precinctSeed with
      | .error partialRows => .error { st with precinctRows := partialRows }
      | .ok rows =>
        .ok (setDataVersion { st with precinctRows := rows } .precincts precinctVersion)
    else .ok st
  match phase1 with
  | .error failed => failed
  | .ok st1 =>
    if needsUpgrade (getDataVersion st1 .sectors) sectorVersion then
      match sectorSeed with
      | .error partialRows => { st1 with sectorRows := partialRows }
      | .ok rows =>
        setDataVersion { st1 with sectorRows := rows } .sectors sectorVersion
    else st1

/-- A database state with no rows and no recorded versions. -/
def emptyDb : DbState := { precinctRows := [], sectorRows := [], versions := [] }

/-! ## Fold lemmas for the resolver loops -/

lemma bestStep_of_not_match (point : LatLng) (acc : Option (Precinct × ℚ))
    (p : Precinct) (h : polygonMatch point p = false) :
    bestStep point acc p = acc := by
  cases hb : p.boundaryJson with
  | none => simp [bestStep, hb]
  | some g =>
    have hg : isPointInPolygon point g = false := by
      simpa [polygonMatch, hb] using h
    simp [bestStep, hb, hg]

lemma bestStep_of_match_none (point : LatLng) (p : Precinct)
    (h : polygonMatch point p = true) :
    bestStep point none p = some (p, distanceTo point (centroid p)) := by
  cases hb : p.boundaryJson with
  | none => simp [polygonMatch, hb] at h
  | some g =>
    have hg : isPointInPolygon point g = true := by
      simpa [polygonMatch, hb] using h
    simp [bestStep, hb, hg]

lemma bestStep_of_match_some (point : LatLng) (p b : Precinct) (db : ℚ)
    (h : polygonMatch point p = true) :
    bestStep point (some (b, db)) p =
      if distanceTo point (centroid p) < db then
        some (p, distanceTo point (centroid p))
      else some (b, db) := by
  cases hb : p.boundaryJson with
  | none => simp [polygonMatch, hb] at h
  | some g =>
    have hg : isPointInPolygon point g = true := by
      simpa [polygonMatch, hb] using h
    simp [bestStep, hb, hg]

lemma bestFold_spec (point : LatLng) (l : List Precinct) :
    (l.foldl (bestStep point) none = none ↔
      ∀ p ∈ l, polygonMatch point p = false) ∧
    (∀ p d, l.foldl (bestStep point) none = some (p, d) →
      p ∈ l ∧ polygonMatch point p = true ∧ d = distanceTo point (centroid p) ∧
        ∀ q ∈ l, polygonMatch point q = true →
          d ≤ distanceTo point (centroid q)) := by
  induction l using List.reverseRecOn with
  | nil => exact ⟨by simp, by intro p d h; simp at h⟩
  | append_singleton l x ih =>
    obtain ⟨ihn, ihs⟩ := ih
    rw [List.foldl_append, List.foldl_cons, List.foldl_nil]
    cases hmx : polygonMatch point x with
    | false =>
      rw [bestStep_of_not_match point _ x hmx]
      constructor
      · rw [ihn]
        constructor
        · intro h p hp
          rcases List.mem_append.mp hp with hp | hp
          · exact h p hp
          · rw [List.mem_singleton] at hp; subst hp; exact hmx
        · intro h p hp
          exact h p (List.mem_append.mpr (Or.inl hp))
      · intro p d h
        obtain ⟨h1, h2, h3, h4⟩ := ihs p d h
        refine ⟨List.mem_append.mpr (Or.inl h1), h2, h3, ?_⟩
        intro q hq hmq
        rcases List.mem_append.mp hq with hq | hq
        · exact h4 q hq hmq
        · rw [List.mem_singleton] at hq; subst hq
          rw [hmx] at hmq; exact absurd hmq (by simp)
    | true =>
      cases hr : l.foldl (bestStep point) none with
      | none =>
        have hall := ihn.mp hr
        rw [bestStep_of_match_none point x hmx]
        constructor
        · constructor
          · intro h; exact absurd h (by simp)
          · intro h
            have hx := h x (List.mem_append.mpr (Or.inr (List.mem_singleton.mpr rfl)))
            rw [hmx] at hx; exact absurd hx (by simp)
        · intro p d h
          simp only [Option.some.injEq, Prod.mk.injEq] at h
          obtain ⟨hpx, hdd⟩ := h
          subst hpx; subst hdd
          refine ⟨List.mem_append.mpr (Or.inr (List.mem_singleton.mpr rfl)), hmx, rfl, ?_⟩
          intro q hq hmq
          rcases List.mem_append.mp hq with hq | hq
          · rw [hall q hq] at hmq; exact absurd hmq (by simp)
          · rw [List.mem_singleton] at hq; subst hq; exact le_refl _
      | some bd =>
        obtain ⟨b, db⟩ := bd
        obtain ⟨hb1, hb2, hb3, hb4⟩ := ihs b db hr
        rw [bestStep_of_match_some point x b db hmx]
        by_cases hlt : distanceTo point (centroid x) < db
        · rw [if_pos hlt]
          constructor
          · constructor
            · intro h; exact absurd h (by simp)
            · intro h
              have hx := h x (List.mem_append.mpr (Or.inr (List.mem_singleton.mpr rfl)))
              rw [hmx] at hx; exact absurd hx (by simp)
          · intro p d h
            simp only [Option.some.injEq, Prod.mk.injEq] at h
            obtain ⟨hpx, hdd⟩ := h
            subst hpx; subst hdd
            refine ⟨List.mem_append.mpr (Or.inr (List.mem_singleton.mpr rfl)), hmx, rfl, ?_⟩
            intro q hq hmq
            rcases List.mem_append.mp hq with hq | hq
            · exact le_of_lt (lt_of_lt_of_le hlt (hb3 ▸ hb4 q hq hmq))
            · rw [List.mem_singleton] at hq; subst hq; exact le_refl _
        · rw [if_neg hlt]
          push_neg at hlt
          constructor
          · constructor
            · intro h; exact absurd h (by simp)
            · intro h
              have hx := h x (List.mem_append.mpr (Or.inr (List.mem_singleton.mpr rfl)))
              rw [hmx] at hx; exact absurd hx (by simp)
          · intro p d h
            simp only [Option.some.injEq, Prod.mk.injEq] at h
            obtain ⟨hpb, hdd⟩ := h
            subst hpb; subst hdd
            refine ⟨List.mem_append.mpr (Or.inl hb1), hb2, hb3, ?_⟩
            intro q hq hmq
            rcases List.mem_append.mp hq with hq | hq
            · exact hb4 q hq hmq
            · rw [List.mem_singleton] at hq; subst hq; exact hb3 ▸ hlt

lemma bestFold_noop (point : LatLng) (l : List Precinct)
    (acc : Option (Precinct × ℚ)) (h : ∀ p ∈ l, polygonMatch point p = false) :
    l.foldl (bestStep point) acc = acc := by
  induction l generalizing acc with
  | nil => rfl
  | cons x l ih =>
    rw [List.foldl_cons, bestStep_of_not_match point acc x (h x (by simp))]
    exact ih acc fun p hp => h p (by simp [hp])

lemma nearestFold_spec (point : LatLng) (l : List Precinct) :
    (l.foldl (nearestStep point) none = none ↔ l = []) ∧
    (∀ p d, l.foldl (nearestStep point) none = some (p, d) →
      p ∈ l ∧ d = distanceTo point (centroid p) ∧
        ∀ q ∈ l, d ≤ distanceTo point (centroid q)) := by
  induction l using List.reverseRecOn with
  | nil => exact ⟨by simp, by intro p d h; simp at h⟩
  | append_singleton l x ih =>
    obtain ⟨ihn, ihs⟩ := ih
    rw [List.foldl_append, List.foldl_cons, List.foldl_nil]
    cases hr : l.foldl (nearestStep point) none with
    | none =>
      have hl : l = [] := ihn.mp hr
      subst hl
      constructor
      · constructor
        · intro h; simp [nearestStep] at h
        · intro h; exact absurd h (by simp)
      · intro p d h
        simp only [nearestStep, Option.some.injEq, Prod.mk.injEq] at h
        obtain ⟨hpx, hdd⟩ := h
        subst hpx; subst hdd
        refine ⟨by simp, rfl, ?_⟩
        intro q hq
        simp only [List.nil_append, List.mem_singleton] at hq
        subst hq; exact le_refl _
    | some bd =>
      obtain ⟨b, db⟩ := bd
      obtain ⟨hb1, hb2, hb3⟩ := ihs b db hr
      have hstep : nearestStep point (some (b, db)) x =
          if distanceTo point (centroid x) < db then
            some (x, distanceTo point (centroid x))
          else some (b, db) := rfl
      rw [hstep]
      by_cases hlt : distanceTo point (centroid x) < db
      · rw [if_pos hlt]
        constructor
        · constructor
          · intro h; exact absurd h (by simp)
          · intro h; exact absurd h (by simp)
        · intro p d h
          simp only [Option.some.injEq, Prod.mk.injEq] at h
          obtain ⟨hpx, hdd⟩ := h
          subst hpx; subst hdd
          refine ⟨List.mem_append.mpr (Or.inr (List.mem_singleton.mpr rfl)), rfl, ?_⟩
          intro q hq
          rcases List.mem_append.mp hq with hq | hq
          · exact le_of_lt (lt_of_lt_of_le hlt (hb2 ▸ hb3 q hq))
          · rw [List.mem_singleton] at hq; subst hq; exact le_refl _
      · rw [if_neg hlt]
        push_neg at hlt
        constructor
        · constructor
          · intro h; exact absurd h (by simp)
          · intro h; exact absurd h (by simp)
        · intro p d h
          simp only [Option.some.injEq, Prod.mk.injEq] at h
          obtain ⟨hpb, hdd⟩ := h
          subst hpb; subst hdd
          refine ⟨List.mem_append.mpr (Or.inl hb1), hb2, ?_⟩
          intro q hq
          rcases List.mem_append.mp hq with hq | hq
          · exact hb3 q hq
          · rw [List.mem_singleton] at hq; subst hq; exact hb2 ▸ hlt

lemma edgeStraddles_sub_ne_zero (lat : ℚ) (vi vj : ℚ × ℚ)
    (h : edgeStraddles lat vi vj = true) : vj.2 - vi.2 ≠ 0 := by
  intro heq
  have hv : vj.2 = vi.2 := by linarith
  rw [edgeStraddles, hv] at h
  simp at h

lemma rayCastingChecked_loop (lat lng : ℚ) (ring : List (ℚ × ℚ))
    (idxs : List ℕ) : ∀ b : Bool,
    idxs.foldl (rayCastingCheckedStep lat lng ring) (some b) =
      some (idxs.foldl (rayCastingStep lat lng ring) b) := by
  induction idxs with
  | nil => intro b; rfl
  | cons i idxs ih =>
    intro b
    rw [List.foldl_cons, List.foldl_cons]
    have hstep : rayCastingCheckedStep lat lng ring (some b) i =
        some (rayCastingStep lat lng ring b i) := by
      unfold rayCastingCheckedStep rayCastingStep edgeCrossing
      set vi := ring.getD i ((0 : ℚ), (0 : ℚ)) with hvi
      set vj := ring.getD (if i = 0 then ring.length - 1 else i - 1)
        ((0 : ℚ), (0 : ℚ)) with hvj
      dsimp only
      cases hs : edgeStraddles lat vi vj with
      | false => simp
      | true =>
        have hne := edgeStraddles_sub_ne_zero lat vi vj hs
        rw [if_pos rfl, if_neg hne]
        cases hd : decide (lng < (vj.1 - vi.1) * (lat - vi.2) / (vj.2 - vi.2) + vi.1) <;>
          simp [hd]
    rw [hstep, ih]

/-! ## Claim theorems: zone resolution -/

/-- C1.  With a point-collection for which the stored bounding boxes do not
produce false negatives (every zone whose polygon contains the point also
passes the bounding-box pre-filter — the data invariant the spec demands of
`boundingBoxJson`), `findPrecinctAtLocation` returns: `none` when no zone's
polygon contains the point; some matching zone of minimal squared centroid
distance whenever it returns at all; a zone whenever some polygon match
exists; and the unique matching zone when exactly one matches. -/
theorem findPrecinctAtLocation_centroid_tiebreak (point : LatLng)
    (zones : List Precinct)
    (hbb : ∀ p ∈ zones, polygonMatch point p = true → inCandidate point p = true) :
    ((∀ p ∈ zones, polygonMatch point p = false) →
      findPrecinctAtLocation point zones = none) ∧
    (∀ p, findPrecinctAtLocation point zones = some p →
      p ∈ zones ∧ polygonMatch point p = true ∧
        ∀ q ∈ zones, polygonMatch point q = true →
          distanceTo point (centroid p) ≤ distanceTo point (centroid q)) ∧
    ((∃ p ∈ zones, polygonMatch point p = true) →
      ∃ p, findPrecinctAtLocation point zones = some p) ∧
    (∀ g ∈ zones, polygonMatch point g = true →
      (∀ q ∈ zones, polygonMatch point q = true → q = g) →
      findPrecinctAtLocation point zones = some g) := by
  obtain ⟨fn, fs⟩ := bestFold_spec point (zones.filter (inCandidate point))
  have part2 : ∀ p, findPrecinctAtLocation point zones = some p →
      p ∈ zones ∧ polygonMatch point p = true ∧
        ∀ q ∈ zones, polygonMatch point q = true →
          distanceTo point (centroid p) ≤ distanceTo point (centroid q) := by
    intro p hp
    unfold findPrecinctAtLocation at hp
    cases hfold : (zones.filter (inCandidate point)).foldl (bestStep point) none with
    | none => rw [hfold] at hp; simp at hp
    | some bd =>
      obtain ⟨b, db⟩ := bd
      rw [hfold] at hp
      simp only [Option.map_some'] at hp
      have hbp : b = p := by simpa using hp
      subst hbp
      obtain ⟨h1, h2, h3, h4⟩ := fs b db hfold
      refine ⟨(List.mem_filter.mp h1).1, h2, ?_⟩
      intro q hq hmq
      have hqc : q ∈ zones.filter (inCandidate point) :=
        List.mem_filter.mpr ⟨hq, hbb q hq hmq⟩
      exact h3 ▸ h4 q hqc hmq
  have part1 : (∀ p ∈ zones, polygonMatch point p = false) →
      findPrecinctAtLocation point zones = none := by
    intro hnone
    unfold findPrecinctAtLocation
    rw [fn.mpr fun p hp => hnone p (List.mem_filter.mp hp).1]
    rfl
  have part3 : (∃ p ∈ zones, polygonMatch point p = true) →
      ∃ p, findPrecinctAtLocation point zones = some p := by
    rintro ⟨p, hp, hm⟩
    have hpc : p ∈ zones.filter (inCandidate point) :=
      List.mem_filter.mpr ⟨hp, hbb p hp hm⟩
    cases hfold : (zones.filter (inCandidate point)).foldl (bestStep point) none with
    | none =>
      have := fn.mp hfold p hpc
      rw [hm] at this; exact absurd this (by simp)
    | some bd =>
      exact ⟨bd.1, by unfold findPrecinctAtLocation; rw [hfold]; rfl⟩
  have part4 : ∀ g ∈ zones, polygonMatch point g = true →
      (∀ q ∈ zones, polygonMatch point q = true → q = g) →
      findPrecinctAtLocation point zones = some g := by
    intro g hg hmg huniq
    obtain ⟨p, hp⟩ := part3 ⟨g, hg, hmg⟩
    obtain ⟨hp1, hp2, _⟩ := part2 p hp
    rw [huniq p hp1 hp2] at hp
    exact hp
  exact ⟨part1, part2, part3, part4⟩

/-- C1 witness: with the single overlapping-square fixture, the unique
polygon match is returned; all hypotheses discharged at concrete data. -/
theorem findPrecinctAtLocation_centroid_tiebreak_witness :
    findPrecinctAtLocation samplePoint [zoneA] = some zoneA :=
  (findPrecinctAtLocation_centroid_tiebreak samplePoint [zoneA]
    (by
      intro p hp _
      rw [List.mem_singleton] at hp; subst hp
      norm_num [inCandidate, parseBoundingBox, isPointInBoundingBox, samplePoint,
        zoneA])).2.2.2 zoneA (by simp)
    (by
      norm_num [polygonMatch, zoneA, isPointInPolygon, isPointInSinglePolygon,
        rayCasting, squareRing, rayCastingStep, edgeCrossing, edgeStraddles,
        samplePoint, List.range_succ])
    (by
      intro q hq _
      rw [List.mem_singleton] at hq; exact hq)

/-- C3.  `findNearestPrecinct` only ever returns a zone of minimal squared
centroid distance, never one beyond the `0.0009` threshold; it returns
`none` whenever every zone (hence the minimum) lies beyond the threshold,
and returns a zone whenever some zone is within it. -/
theorem findNearestPrecinct_min_and_threshold (point : LatLng)
    (zones : List Precinct) :
    (∀ p, findNearestPrecinct point zones = some p →
      p ∈ zones ∧ distanceTo point (centroid p) ≤ (9 : ℚ) / 10000 ∧
        ∀ q ∈ zones, distanceTo point (centroid p) ≤ distanceTo point (centroid q)) ∧
    ((∀ q ∈ zones, distanceTo point (centroid q) > (9 : ℚ) / 10000) →
      findNearestPrecinct point zones = none) ∧
    ((∃ q ∈ zones, distanceTo point (centroid q) ≤ (9 : ℚ) / 10000) →
      ∃ p, findNearestPrecinct point zones = some p) := by
  obtain ⟨fn, fs⟩ := nearestFold_spec point zones
  refine ⟨?_, ?_, ?_⟩
  · intro p hp
    cases hfold : zones.foldl (nearestStep point) none with
    | none =>
      have hval : findNearestPrecinct point zones = none := by
        unfold findNearestPrecinct; rw [hfold]
      rw [hval] at hp; exact absurd hp (by simp)
    | some bd =>
      obtain ⟨b, db⟩ := bd
      have hval : findNearestPrecinct point zones =
          if db > (9 : ℚ) / 10000 then none else some b := by
        unfold findNearestPrecinct; rw [hfold]
      rw [hval] at hp
      obtain ⟨h1, h2, h3⟩ := fs b db hfold
      by_cases hthr : db > (9 : ℚ) / 10000
      · rw [if_pos hthr] at hp; exact absurd hp (by simp)
      · rw [if_neg hthr] at hp
        push_neg at hthr
        have hbp : b = p := by simpa using hp
        subst hbp
        exact ⟨h1, h2 ▸ hthr, fun q hq => h2 ▸ h3 q hq⟩
  · intro hfar
    cases hfold : zones.foldl (nearestStep point) none with
    | none =>
      unfold findNearestPrecinct; rw [hfold]
    | some bd =>
      obtain ⟨b, db⟩ := bd
      have hval : findNearestPrecinct point zones =
          if db > (9 : ℚ) / 10000 then none else some b := by
        unfold findNearestPrecinct; rw [hfold]
      obtain ⟨h1, h2, _⟩ := fs b db hfold
      rw [hval, if_pos (h2 ▸ hfar b h1)]
  · rintro ⟨q, hq, hqle⟩
    cases hfold : zones.foldl (nearestStep point) none with
    | none =>
      rw [fn.mp hfold] at hq
      exact absurd hq (by simp)
    | some bd =>
      obtain ⟨b, db⟩ := bd
      have hval : findNearestPrecinct point zones =
          if db > (9 : ℚ) / 10000 then none else some b := by
        unfold findNearestPrecinct; rw [hfold]
      obtain ⟨_, h2, h3⟩ := fs b db hfold
      have hle : ¬ db > (9 : ℚ) / 10000 := not_lt.mpr (le_trans (h3 q hq) hqle)
      rw [hval, if_neg hle]
      exact ⟨b, rfl⟩

/-- C6.  Malformed boundary geometry (unparseable JSON, empty coordinate
list, unrecognized type tag) never matches; inserting any malformed zones
anywhere into the collection leaves the result of `findPrecinctAtLocation`
unchanged; and a point inside a well-formed zone's polygon is still
resolved to that zone with malformed zones present.  (Totality of the Lean
functions embeds the "never raises" part: the `try/catch` skip is the
`none`-branch of `bestStep`.) -/
theorem malformed_geometry_excluded (point : LatLng) :
    (∀ p : Precinct, malformedBoundary p = true → polygonMatch point p = false) ∧
    (∀ l1 bad l2 : List Precinct, (∀ p ∈ bad, malformedBoundary p = true) →
      findPrecinctAtLocation point (l1 ++ bad ++ l2) =
        findPrecinctAtLocation point (l1 ++ l2)) ∧
    (∀ g : Precinct, ∀ bad : List Precinct,
      (∀ p ∈ bad, malformedBoundary p = true) →
      inCandidate point g = true → polygonMatch point g = true →
      findPrecinctAtLocation point (bad ++ [g]) = some g) := by
  have hmal : ∀ p : Precinct, malformedBoundary p = true →
      polygonMatch point p = false := by
    intro p hp
    unfold malformedBoundary at hp
    unfold polygonMatch
    cases hb : p.boundaryJson with
    | none => rfl
    | some g =>
      rw [hb] at hp
      cases g with
      | polygon coordinates =>
        cases coordinates with
        | nil => rfl
        | cons r rs => simp at hp
      | multiPolygon coordinates =>
        cases coordinates with
        | nil => rfl
        | cons r rs => simp at hp
      | other => rfl
  refine ⟨hmal, ?_, ?_⟩
  · intro l1 bad l2 hbad
    unfold findPrecinctAtLocation
    rw [List.filter_append, List.filter_append, List.filter_append,
      List.foldl_append, List.foldl_append, List.foldl_append]
    congr 2
    exact bestFold_noop point _ _ fun p hp =>
      hmal p (hbad p (List.mem_filter.mp hp).1)
  · intro g bad hbad hcand hmatch
    unfold findPrecinctAtLocation
    rw [List.filter_append, List.foldl_append]
    have hnoop : (bad.filter (inCandidate point)).foldl (bestStep point) none = none :=
      bestFold_noop point _ _ fun p hp => hmal p (hbad p (List.mem_filter.mp hp).1)
    rw [hnoop]
    have hfg : List.filter (inCandidate point) [g] = [g] := by
      simp [List.filter, hcand]
    rw [hfg, List.foldl_cons, List.foldl_nil,
      bestStep_of_match_none point g hmatch]
    rfl

/-- C9.  For a point that lies strictly outside every parseable stored
bounding box, the candidate pre-filter of `findPrecinctAtLocation` is
empty — so the loop containing the `isPointInPolygon` call never runs
(`polygonTestsRun` counts zero executions) — and the resolver returns
`none`. -/
theorem bbox_prefilter_rejects_all (point : LatLng) (zones : List Precinct)
    (h : ∀ p ∈ zones, ∀ bbox, parseBoundingBox p.boundingBoxJson = some bbox →
      point.latitude < bbox.minLat ∨ point.latitude > bbox.maxLat ∨
        point.longitude < bbox.minLng ∨ point.longitude > bbox.maxLng) :
    zones.filter (inCandidate point) = [] ∧
    polygonTestsRun point zones = 0 ∧
    findPrecinctAtLocation point zones = none := by
  have hf : zones.filter (inCandidate point) = [] := by
    rw [List.filter_eq_nil_iff]
    intro p hp
    unfold inCandidate
    cases hpb : parseBoundingBox p.boundingBoxJson with
    | none => simp
    | some bbox =>
      have hout := h p hp bbox hpb
      intro hcontra
      simp only [isPointInBoundingBox, Bool.and_eq_true, decide_eq_true_eq,
        ge_iff_le] at hcontra
      obtain ⟨⟨⟨a1, a2⟩, a3⟩, a4⟩ := hcontra
      rcases hout with h1 | h1 | h1 | h1 <;> linarith
  refine ⟨hf, ?_, ?_⟩
  · unfold polygonTestsRun
    rw [hf]
    rfl
  · unfold findPrecinctAtLocation
    rw [hf]
    rfl

/-- C9 witness: a far-away point is rejected by the pre-filter of both
fixture zones. -/
theorem bbox_prefilter_rejects_all_witness :
    findPrecinctAtLocation farPoint [zoneA, zoneB] = none :=
  (bbox_prefilter_rejects_all farPoint [zoneA, zoneB]
    (by
      intro p hp bbox hpb
      simp only [List.mem_cons, List.not_mem_nil, or_false] at hp
      rcases hp with rfl | rfl
      · simp only [zoneA, parseBoundingBox, Option.some.injEq] at hpb
        subst hpb
        norm_num [farPoint]
      · simp only [zoneB, parseBoundingBox, Option.some.injEq] at hpb
        subst hpb
        norm_num [farPoint])).2.2

/-- C10.  Ray casting never divides by zero: an edge whose endpoints'
latitudes satisfy the straddle condition has distinct latitudes, and the
instrumented `rayCastingChecked` — identical control flow with the division
guarded — always returns `some` of the plain `rayCasting` result, for every
point and every ring (horizontal edges included). -/
theorem rayCasting_division_safe (lat lng : ℚ) (ring : List (ℚ × ℚ)) :
    rayCastingChecked lat lng ring = some (rayCasting lat lng ring) ∧
    ∀ vi vj : ℚ × ℚ, edgeStraddles lat vi vj = true → vj.2 - vi.2 ≠ 0 := by
  constructor
  · unfold rayCastingChecked rayCasting
    exact rayCastingChecked_loop lat lng ring (List.range ring.length) false
  · exact fun vi vj h => edgeStraddles_sub_ne_zero lat vi vj h

/-! ## Arithmetic lemmas for the cyclic index -/

lemma neg_lt_tmod (s c : ℤ) (hc : 0 < c) : -c < Int.tmod s c := by
  cases s with
  | ofNat m =>
    have h0 : (0 : ℤ) ≤ Int.tmod (Int.ofNat m) c :=
      Int.tmod_nonneg c (Int.ofNat_nonneg m)
    omega
  | negSucc m =>
    cases c with
    | ofNat n =>
      have hn : 0 < n := by
        by_contra hcon
        push_neg at hcon
        interval_cases n
        exact absurd hc (by decide)
      have hr : Nat.succ m % n < n := Nat.mod_lt _ hn
      simp only [Int.tmod, Int.ofNat_eq_natCast]
      omega
    | negSucc n =>
      exact absurd (lt_trans hc (Int.negSucc_lt_zero n)) (lt_irrefl 0)

lemma tmod_correction (s c : ℤ) (hc : 0 < c) :
    (if Int.tmod s c < 0 then Int.tmod s c + c else Int.tmod s c) = s % c := by
  have hadd := Int.tmod_add_tdiv s c
  have hlt := Int.tmod_lt_of_pos s hc
  have hcong : Int.tmod s c % c = s % c := by
    conv_rhs => rw [← hadd]
    rw [Int.add_mul_emod_self_left]
  split
  next hneg =>
    have hgt := neg_lt_tmod s c hc
    have hshift : (Int.tmod s c + c) % c = s % c := by
      have h1 : (Int.tmod s c + c * 1) % c = Int.tmod s c % c :=
        Int.add_mul_emod_self_left _ _ _
      rw [mul_one] at h1
      rw [h1, hcong]
    rw [← hshift, Int.emod_eq_of_lt (by omega) (by omega)]
  next hpos =>
    push_neg at hpos
    rw [← hcong, Int.emod_eq_of_lt hpos hlt]

/-! ## Association-list lemmas for month schedules and version records -/

lemma lookup_append_some {α β : Type} [BEq α] (l1 l2 : List (α × β)) (k : α)
    (v : β) (h : l1.lookup k = some v) : (l1 ++ l2).lookup k = some v := by
  induction l1 with
  | nil => simp [List.lookup] at h
  | cons e l ih =>
    obtain ⟨ek, ev⟩ := e
    rw [List.cons_append]
    cases hk : k == ek with
    | false =>
      simp only [List.lookup, hk] at h ⊢
      exact ih h
    | true =>
      simp only [List.lookup, hk] at h ⊢
      exact h

lemma lookup_append_none {α β : Type} [BEq α] (l1 l2 : List (α × β)) (k : α)
    (h : l1.lookup k = none) : (l1 ++ l2).lookup k = l2.lookup k := by
  induction l1 with
  | nil => rfl
  | cons e l ih =>
    obtain ⟨ek, ev⟩ := e
    rw [List.cons_append]
    cases hk : k == ek with
    | false =>
      simp only [List.lookup, hk] at h ⊢
      exact ih h
    | true =>
      simp only [List.lookup, hk] at h
      exact absurd h (by simp)

lemma lookup_rangeMap (f : ℕ → Bool) (dim : ℕ) (day : ℤ) :
    ((List.range dim).map fun k : ℕ => ((k : ℤ) + 1, f k)).lookup day =
      if 1 ≤ day ∧ day ≤ (dim : ℤ) then some (f (day - 1).toNat) else none := by
  induction dim with
  | zero =>
    simp only [List.range_zero, List.map_nil]
    rw [if_neg (by omega)]
    rfl
  | succ n ih =>
    rw [List.range_succ, List.map_append]
    by_cases hin : 1 ≤ day ∧ day ≤ (n : ℤ)
    · have h1 : ((List.range n).map fun k : ℕ => ((k : ℤ) + 1, f k)).lookup day =
          some (f (day - 1).toNat) := by rw [ih, if_pos hin]
      rw [lookup_append_some _ _ _ _ h1, if_pos (by push_cast; omega)]
    · have h1 : ((List.range n).map fun k : ℕ => ((k : ℤ) + 1, f k)).lookup day = none := by
        rw [ih, if_neg hin]
      rw [lookup_append_none _ _ _ h1]
      by_cases hd : day = (n : ℤ) + 1
      · subst hd
        simp only [List.map_cons, List.map_nil, List.lookup, beq_self_eq_true]
        rw [if_pos (by push_cast; omega)]
        have htn : ((n : ℤ) + 1 - 1).toNat = n := by omega
        rw [htn]
      · simp only [List.map_cons, List.map_nil, List.lookup,
          show (day == (n : ℤ) + 1) = false from beq_eq_false_iff_ne.mpr hd]
        rw [if_neg (by push_cast; omega)]

lemma jsCharListLt_irrefl : ∀ l : List Char, jsCharListLt l l = false
  | [] => rfl
  | c :: l => by
    unfold jsCharListLt
    rw [if_neg (lt_irrefl c.toNat), if_neg (lt_irrefl c.toNat)]
    exact jsCharListLt_irrefl l

lemma lookup_filter_ne (k kk : DatasetKey) (h : ¬ kk = k)
    (l : List (DatasetKey × String)) :
    (l.filter fun e => e.1 != k).lookup kk = l.lookup kk := by
  induction l with
  | nil => rfl
  | cons e l ih =>
    obtain ⟨ek, ev⟩ := e
    rw [List.filter_cons]
    by_cases hek : ek = k
    · subst hek
      simp only [bne_self_eq_false, Bool.false_eq_true, if_false]
      rw [ih]
      simp only [List.lookup,
        show (kk == ek) = false from beq_eq_false_iff_ne.mpr h]
    · simp only [show ((ek, ev).1 != k) = true from bne_iff_ne.mpr hek, if_true]
      cases hkk : kk == ek with
      | false =>
        simp only [List.lookup, hkk]
        exact ih
      | true => simp only [List.lookup, hkk]

lemma getDataVersion_set (st : DbState) (k kk : DatasetKey) (v : String) :
    getDataVersion (setDataVersion st k v) kk =
      if kk = k then some v else getDataVersion st kk := by
  unfold getDataVersion setDataVersion
  by_cases h : kk = k
  · subst h
    rw [if_pos rfl]
    simp [List.lookup]
  · rw [if_neg h]
    simp only [List.lookup,
      show (kk == k) = false from beq_eq_false_iff_ne.mpr h]
    exact lookup_filter_ne k kk h st.versions

/-! ## Claim theorems: schedule engine -/

/-- C2.  The rotating-schedule day index is the truncating remainder
corrected into `[0, cycleLength)` — equal to the mathematical (Euclidean)
`(daysSinceAnchor + offset) mod cycleLength` even for dates before the
anchor — and on the seeded Squad-1 schedule (anchor 2026-01-01, 15-day
pattern, offset 0) the computed January 2026 schedule marks the 6th as off
(index 5 = 'O') and the 1st as on duty (index 0 = 'W'). -/
theorem cyclic_schedule_index_normalization :
    (∀ diffDays offset cycleLength : ℤ, 0 < cycleLength →
      0 ≤ cyclicIndex diffDays offset cycleLength ∧
        cyclicIndex diffDays offset cycleLength < cycleLength ∧
        cyclicIndex diffDays offset cycleLength = (diffDays + offset) % cycleLength) ∧
    (computeMonthSchedule 2026 0 squad1Schedule).lookup 6 = some true ∧
    (computeMonthSchedule 2026 0 squad1Schedule).lookup 1 = some false := by
  refine ⟨?_, by decide, by decide⟩
  intro diffDays offset cycleLength hc
  have h := tmod_correction (diffDays + offset) cycleLength hc
  unfold cyclicIndex
  dsimp only
  rw [h]
  exact ⟨Int.emod_nonneg _ (ne_of_gt hc), Int.emod_lt_of_pos _ hc, rfl⟩

/-- C7.  For a steady schedule with the Sunday-first pattern
`[O,W,W,W,W,W,O]`, every entry `computeMonthSchedule` produces is off
exactly on Saturdays (`getDay = 6`) and Sundays (`getDay = 0`), and the
computed month is identical for every choice of anchor date and offset
(the steady branch reads neither). -/
theorem steady_schedule_weekend_off (year : ℤ) (month : ℕ) (_hm : month < 12)
    (s : RdoSchedule) (hty : s.patternType = .steady)
    (hpat : s.patternArray = ['O', 'W', 'W', 'W', 'W', 'W', 'O']) :
    (∀ day b, (computeMonthSchedule year month s).lookup day = some b →
      (b = true ↔
        getDay (daysFromCivil year ((month : ℤ) + 1) day) = 0 ∨
          getDay (daysFromCivil year ((month : ℤ) + 1) day) = 6)) ∧
    (∀ other : RdoSchedule, other.patternType = .steady →
      other.patternArray = s.patternArray →
      computeMonthSchedule year month other = computeMonthSchedule year month s) := by
  constructor
  · intro day b hb
    unfold computeMonthSchedule at hb
    rw [lookup_rangeMap] at hb
    by_cases hin : 1 ≤ day ∧ day ≤ ((daysInMonth year month : ℕ) : ℤ)
    case neg => rw [if_neg hin] at hb; exact absurd hb (by simp)
    rw [if_pos hin] at hb
    have hday : (((day - 1).toNat : ℤ)) + 1 = day := by omega
    rw [hday] at hb
    have hb2 : b = isOffOn s (daysFromCivil year ((month : ℤ) + 1) day) := by
      have := hb.symm
      simpa using this
    subst hb2
    unfold isOffOn
    rw [hty]
    dsimp only
    rw [hpat]
    have h0 : 0 ≤ getDay (daysFromCivil year ((month : ℤ) + 1) day) :=
      Int.emod_nonneg _ (by norm_num)
    have h7 : getDay (daysFromCivil year ((month : ℤ) + 1) day) < 7 :=
      Int.emod_lt_of_pos _ (by norm_num)
    generalize hw : getDay (daysFromCivil year ((month : ℤ) + 1) day) = w at h0 h7 ⊢
    interval_cases w <;> decide
  · intro other hty2 hpat2
    unfold computeMonthSchedule
    congr 1
    funext k
    simp only [Prod.mk.injEq, true_and]
    unfold isOffOn
    rw [hty, hty2]
    dsimp only
    rw [hpat2, hpat]

/-- C7 witness: January 2026 under the seeded steady schedule has the 3rd
(a Saturday) off, and the theorem identifies that flag with its weekday. -/
theorem steady_schedule_weekend_off_witness :
    true = true ↔
      getDay (daysFromCivil 2026 (((0 : ℕ) : ℤ) + 1) 3) = 0 ∨
        getDay (daysFromCivil 2026 (((0 : ℕ) : ℤ) + 1) 3) = 6 :=
  (steady_schedule_weekend_off 2026 0 (by decide) steadySquadSchedule rfl rfl).1
    3 true (by decide)

/-- C8.  `computeMonthSchedule` produces exactly the keys `1..N` in order,
where `N = daysInMonth` is the true month length: it equals the day-number
difference between the first of the next month and the first of this month
(computed by the independent era/year-of-era day-number algorithm), and is
28, 29 (leap-year February), 30 or 31 by the Gregorian table. -/
theorem computeMonthSchedule_exact_keys (year : ℤ) (month : ℕ) (hm : month < 12)
    (s : RdoSchedule) :
    ((computeMonthSchedule year month s).map Prod.fst =
      (List.range (daysInMonth year month)).map fun k : ℕ => (k : ℤ) + 1) ∧
    (∀ day : ℤ, ((computeMonthSchedule year month s).lookup day).isSome = true ↔
      1 ≤ day ∧ day ≤ ((daysInMonth year month : ℕ) : ℤ)) ∧
    (((daysInMonth year month : ℕ) : ℤ) =
      (if month = 11 then daysFromCivil (year + 1) 1 1
       else daysFromCivil year ((month : ℤ) + 2) 1) -
        daysFromCivil year ((month : ℤ) + 1) 1) ∧
    (daysInMonth year month =
      if month = 1 then (if isLeapYear year then 29 else 28)
      else if month = 3 ∨ month = 5 ∨ month = 8 ∨ month = 10 then 30 else 31) := by
  refine ⟨?_, ?_, ?_, rfl⟩
  · unfold computeMonthSchedule
    rw [List.map_map]
    rfl
  · intro day
    unfold computeMonthSchedule
    rw [lookup_rangeMap]
    by_cases hin : 1 ≤ day ∧ day ≤ ((daysInMonth year month : ℕ) : ℤ)
    · rw [if_pos hin]
      simpa using hin
    · rw [if_neg hin]
      simpa using hin
  · interval_cases month <;>
      simp only [daysInMonth, isLeapYear, daysFromCivil, Bool.or_eq_true,
        Bool.and_eq_true, beq_iff_eq, bne_iff_ne, ne_eq] <;>
      norm_num <;>
      split_ifs <;>
      omega

/-- C8 witness: leap-year February 2024 has an entry for day 29. -/
theorem computeMonthSchedule_exact_keys_witness :
    ((computeMonthSchedule 2024 1 squad1Schedule).lookup 29).isSome = true :=
  ((computeMonthSchedule_exact_keys 2024 1 (by decide) squad1Schedule).2.1 29).mpr
    (by decide)

/-! ## Claim theorems: dataset version manager -/

/-- C5.  The upgrade gate: absent version means upgrade; equal strings mean
no upgrade; in general the gate is exactly JavaScript's character-wise
lexicographic string `<`; and under that rule `"9.0.0"` does not compare
below `"11.0.0"` (digit-count-blind behavior, consistent with the rule). -/
theorem needsUpgrade_gate_behavior :
    (∀ target : String, needsUpgrade none target = true) ∧
    (∀ v : String, needsUpgrade (some v) v = false) ∧
    (∀ current target : String,
      needsUpgrade (some current) target = jsStringLt current target) ∧
    needsUpgrade (some "9.0.0") "11.0.0" = false ∧
    jsStringLt "9.0.0" "11.0.0" = false := by
  refine ⟨fun _ => rfl, ?_, fun _ _ => rfl, by decide, by decide⟩
  intro v
  unfold needsUpgrade jsStringLt
  exact jsCharListLt_irrefl v.data

/-- C4.  When the precinct reseed inside `upgradeSectorsIfNeeded` fails
partway (old rows deleted, only partial rows inserted, then a throw), the
precinct version record is unchanged — and the gate still fires on the next
run; the sector phase behaves the same when its reseed fails after a
successful precinct phase. -/
theorem upgrade_partial_failure_not_recorded (st : DbState)
    (pPartial : List Precinct) (sSeed : Except (List Sector) (List Sector))
    (hneed : needsUpgrade (getDataVersion st .precincts) precinctVersion = true) :
    (getDataVersion (upgradeSectorsIfNeeded st (.error pPartial) sSeed) .precincts =
      getDataVersion st .precincts) ∧
    (needsUpgrade
      (getDataVersion (upgradeSectorsIfNeeded st (.error pPartial) sSeed) .precincts)
      precinctVersion = true) ∧
    (∀ pRows sPartial,
      getDataVersion (upgradeSectorsIfNeeded st (.ok pRows) (.error sPartial)) .sectors =
        getDataVersion st .sectors) ∧
    (∀ pRows sPartial,
      needsUpgrade (getDataVersion st .sectors) sectorVersion = true →
      needsUpgrade
        (getDataVersion (upgradeSectorsIfNeeded st (.ok pRows) (.error sPartial)) .sectors)
        sectorVersion = true) := by
  have hfail : upgradeSectorsIfNeeded st (.error pPartial) sSeed =
      { st with precinctRows := pPartial } := by
    unfold upgradeSectorsIfNeeded
    rw [hneed]
    rfl
  have conj1 : getDataVersion (upgradeSectorsIfNeeded st (.error pPartial) sSeed)
      .precincts = getDataVersion st .precincts := by
    rw [hfail]
    rfl
  have conj3 : ∀ pRows sPartial,
      getDataVersion (upgradeSectorsIfNeeded st (.ok pRows) (.error sPartial)) .sectors =
        getDataVersion st .sectors := by
    intro pRows sPartial
    have hok : upgradeSectorsIfNeeded st (.ok pRows) (.error sPartial) =
        (if needsUpgrade
            (getDataVersion
              (setDataVersion { st with precinctRows := pRows } .precincts precinctVersion)
              .sectors) sectorVersion then
          { setDataVersion { st with precinctRows := pRows } .precincts precinctVersion with
            sectorRows := sPartial }
        else setDataVersion { st with precinctRows := pRows } .precincts precinctVersion) := by
      unfold upgradeSectorsIfNeeded
      rw [hneed]
      rfl
    have hs : getDataVersion
        (setDataVersion { st with precinctRows := pRows } .precincts precinctVersion)
        .sectors = getDataVersion st .sectors := by
      rw [getDataVersion_set]
      rw [if_neg (by decide)]
      rfl
    by_cases hg : needsUpgrade
        (getDataVersion
          (setDataVersion { st with precinctRows := pRows } .precincts precinctVersion)
          .sectors) sectorVersion = true
    · rw [hok, if_pos hg]
      exact hs
    · rw [hok, if_neg hg]
      exact hs
  refine ⟨conj1, ?_, conj3, ?_⟩
  · rw [conj1]
    exact hneed
  · intro pRows sPartial hsg
    rw [conj3 pRows sPartial]
    exact hsg

/-- C4 witness: on a fresh database the precinct gate fires; a failing
reseed leaves the (absent) precinct version record unchanged. -/
theorem upgrade_partial_failure_not_recorded_witness :
    getDataVersion (upgradeSectorsIfNeeded emptyDb (.error []) (.ok [])) .precincts =
      getDataVersion emptyDb .precincts :=
  (upgrade_partial_failure_not_recorded emptyDb [] (.ok []) (by decide)).1

end NYCApp
